import Mathlib

/-!
Verification of the mutation-to-query synchronization engine of
apollo-link-watched-mutation: a shallow embedding of
`src/queries-to-update-manager.js`, the cache-manager module, and the
`WatchedMutationLink` orchestrator, together with models (from the spec)
of the mutation registry and the optimistic-snapshot store whose source
is not part of the repository snapshot.

JavaScript values cached by the link are modelled by the JSON-like type
`Val`; the JSON.stringify-based key comparison used throughout the source
is modelled by structural (decidable) equality, and a thrown JavaScript
exception is modelled by `Except JsErr`.
-/

set_option autoImplicit false

namespace ALWM

/-- A JSON-like value (the data stored in the apollo cache).  Arrays and
objects carry their elements through the `arrCons`/`objCons` spine so that
structural equality is derivable. -/
inductive Val where
  | vnull
  | vbool (b : Bool)
  | vnum (n : Int)
  | vstr (s : String)
  | arrNil
  | arrCons (head tail : Val)
  | objNil
  | objCons (key : String) (value tail : Val)
deriving DecidableEq, Repr

/-- JavaScript truthiness of a value: `null`, `false`, `0` and the empty
string are falsy; arrays and objects (even empty ones) are truthy. -/
def Val.truthy : Val → Bool
  | .vnull => false
  | .vbool b => b
  | .vnum n => n != 0
  | .vstr s => s ≠ ""
  | _ => true

/-- JavaScript truthiness of an optional value (`undefined` is falsy). -/
def jsTruthy : Option Val → Bool
  | none => false
  | some v => v.truthy

/-- Field access `v[name]` on an object value (first matching key wins). -/
def Val.getField : Val → String → Option Val
  | .objCons k value tail, name => if k = name then some value else tail.getField name
  | _, _ => none

/-- The kind of a GraphQL operation's main definition. -/
inductive OpKind where
  | query
  | mutation
deriving DecidableEq, Repr

/-- One entry of a query document's top-level selection set: either a field
(with its name) or a non-field selection such as a fragment spread. -/
inductive Selection where
  | field (name : String)
  | nonField
deriving DecidableEq, Repr

/-- Whether a selection is a field (the `isField` predicate of the apollo
utilities, used by `evict`). -/
def Selection.isFieldSel : Selection → Bool
  | .field _ => true
  | .nonField => false

/-- The name of a field selection (unused for non-fields). -/
def Selection.selName : Selection → String
  | .field n => n
  | .nonField => ""

/-- A GraphQL document, reduced to the parts the link consumes: the main
definition's optional name, its operation kind, and the top-level
selection set (needed only by `evict`). -/
structure Doc where
  name : Option String
  operation : OpKind
  selections : List Selection
deriving DecidableEq, Repr

/-- The canonical cache key the link derives from an operation
(`createKey` in the cache manager): the query document plus variables
(the source's `variables` field is spelled `vars` here). -/
structure CacheKey where
  query : Doc
  vars : Val
deriving DecidableEq, Repr

/-- A key of the inflight-snapshot store.  The store keys entries by the
serialized key value, and a serialized string is never equal to a
serialized cache-key object, so the two spaces are disjoint: `ck` is a
proper cache key, `name` is a plain string (as passed by the success path
of the orchestrator, which hands `clearOptimisticRequest` an operation
name). -/
inductive SnapKey where
  | ck (k : CacheKey)
  | name (s : String)
deriving DecidableEq, Repr

/-- A thrown JavaScript exception, by kind. -/
inductive JsErr where
  | typeError
  | referenceError
deriving DecidableEq, Repr

/-! ### Association-list helpers

The JavaScript modules keep their state in plain objects used as
string-keyed maps; we model them as association lists. -/

/-- Look up the value stored under a key, if any. -/
def alistFind {κ ν : Type} [DecidableEq κ] (l : List (κ × ν)) (k : κ) : Option ν :=
  match l with
  | [] => none
  | (k', v) :: rest => if k' = k then some v else alistFind rest k

/-- Assign a value to a key, overwriting any existing binding (JavaScript
property assignment). -/
def alistSet {κ ν : Type} [DecidableEq κ] (l : List (κ × ν)) (k : κ) (v : ν) :
    List (κ × ν) :=
  match l with
  | [] => [(k, v)]
  | (k', v') :: rest => if k' = k then (k, v) :: rest else (k', v') :: alistSet rest k v

/-! ### The cache store

The underlying apollo cache, observed through `readQuery`/`writeQuery`,
is modelled as a map from cache keys to values.  `readQuery` throws on a
miss; the cache-manager's `read` catches that and returns `undefined`,
so at this interface a miss is simply `none`. -/

abbrev Store := List (CacheKey × Val)

/-- Read the cached data for a key (absent on a miss). -/
def storeRead (s : Store) (k : CacheKey) : Option Val := alistFind s k

/-- Write data for a key (`writeQuery`). -/
def storeWrite (s : Store) (k : CacheKey) (v : Val) : Store := alistSet s k v

/-! ### QueryKeyTracker — `src/queries-to-update-manager.js`

State: `{ Query: [cache_key_1, cache_key_2, ...] }`.  The source compares
keys with `JSON.stringify(key) === JSON.stringify(queryKey)`, modelled as
structural equality on `CacheKey`. -/

abbrev QState := List (String × List CacheKey)

/-- `getQueryKeysToUpdate`: the tracked keys for a query name, or the
empty list (`queriesToUpdate[queryName] || []`). -/
def getQueryKeysToUpdate (st : QState) (queryName : String) : List CacheKey :=
  (alistFind st queryName).getD []

/-- `addQuery`: append the key unless a structurally-equal key is already
tracked under this name. -/
def addQuery (st : QState) (queryName : String) (queryKey : CacheKey) : QState :=
  let existingQueryKeys := getQueryKeysToUpdate st queryName
  if existingQueryKeys.any (fun key => decide (key = queryKey)) then st
  else alistSet st queryName (existingQueryKeys ++ [queryKey])

/-- `removeQuery`: filter out the structurally-equal key.  The source
reads `queriesToUpdate[queryName].length` without a guard, so when the
name has never been tracked the access is on `undefined` and throws a
`TypeError`. -/
def removeQuery (st : QState) (queryName : String) (queryKey : CacheKey) :
    Except JsErr QState :=
  let updatedQueryKeys :=
    (getQueryKeysToUpdate st queryName).filter (fun key => decide (key ≠ queryKey))
  match alistFind st queryName with
  | none => .error .typeError
  | some current =>
      if current.length ≠ updatedQueryKeys.length then
        .ok (alistSet st queryName updatedQueryKeys)
      else
        .ok st

/-! ### MutationRegistry — mutations-to-update-manager (modelled) -/

/-- Input handed to a user-supplied update transform by
`getUpdateAfterMutation`: mutation name/variables/result and query
name/variables/current cached result. -/
structure UpdateInput where
  mutationName : String
  mutationVars : Val
  mutationResult : Val
  queryName : String
  queryVars : Val
  queryResult : Val

/-- An update transform; returning `none` models returning
`null`/`undefined`, the "no write needed" signal. -/
abbrev UpdateFn := UpdateInput → Option Val

/-- Modelled from the spec: the mutations-to-update-manager source is not
part of the snapshot.  The registry is the user configuration
`{ [mutationName]: { [queryName]: UpdateTransform } }`, built once. -/
abbrev Registry := List (String × List (String × UpdateFn))

/-- Modelled from the spec: `isWatched(mutationName) -> boolean`. -/
def isWatched (reg : Registry) (mutationName : String) : Bool :=
  (alistFind reg mutationName).isSome

/-- Modelled from the spec: `getRegisteredQueryNames(mutationName)`, the
ordered query names a watched mutation can affect (empty if unwatched). -/
def getRegisteredQueryNames (reg : Registry) (mutationName : String) : List String :=
  ((alistFind reg mutationName).getD []).map Prod.fst

/-- Modelled from the spec: `getUpdateFn(mutationName, queryName)`; absent
when the pair was not registered (the JS caller would then invoke
`undefined` and throw). -/
def getUpdateFn (reg : Registry) (mutationName queryName : String) : Option UpdateFn :=
  (alistFind reg mutationName).bind (fun qs => alistFind qs queryName)

/-- Modelled from the spec: `getAllRegisteredQueryNames()`, all query
names across all watched mutations. -/
def getAllRegisteredQueryNames (reg : Registry) : List String :=
  reg.foldl (fun acc p => acc ++ p.2.map Prod.fst) []

/-! ### OptimisticSnapshotStore — inflight-request-manager (modelled) -/

/-- Modelled from the spec: the inflight-request-manager source is not
part of the snapshot.  A keyed store of pre-mutation cache values; the
stored value `none` is the `null`/absent marker that doubles as the
"snapshot cleared" state. -/
abbrev SnapStore := List (SnapKey × Option Val)

/-- Modelled from the spec: `set(key, priorDataOrAbsentMarker)`
records/overwrites the snapshot for the key. -/
def snapSet (ss : SnapStore) (k : SnapKey) (v : Option Val) : SnapStore :=
  alistSet ss k v

/-- Modelled from the spec: `getBeforeState(key) -> data | absent`. -/
def getBeforeState (ss : SnapStore) (k : SnapKey) : Option Val :=
  (alistFind ss k).join

/-! ### CacheAdapter — the cache-manager module -/

/-- `createKey(operation)` builds `{ query, variables }`; see `Operation`
below.  `read(query)` delegates to `cache.readQuery` and swallows the
miss exception (the catch only logs, with every referenced variable in
scope), returning `undefined` — i.e. `none`. -/
def cmRead (s : Store) (k : CacheKey) : Option Val := storeRead s k

/-- `write(query, data)`: a no-op in read-only mode, otherwise
`cache.writeQuery`; failures are swallowed (our store model always
succeeds), and the write-path logs reference only in-scope variables. -/
def cmWrite (readOnly : Bool) (s : Store) (k : CacheKey) (v : Val) : Store :=
  if readOnly then s else storeWrite s k v

/-- The set of store-level field identifiers present in the underlying
cache, as observed by `cache.evict({fieldName})`: evicting a present
identifier removes it and returns true, an absent one returns false. -/
abbrev EvStore := List String

/-- One `cache.evict({fieldName})` call on the underlying store. -/
def storeEvictOne (es : EvStore) (fieldName : String) : Bool × EvStore :=
  (es.contains fieldName, es.filter (fun f => f ≠ fieldName))

/-- The body of the `cacheIds.forEach(...)` loop, threading the
`evicted` flag and the store. -/
def evictLoopGo (acc : Bool × EvStore) : List String → Bool × EvStore
  | [] => acc
  | cacheId :: rest =>
      evictLoopGo (if acc.1 then acc else storeEvictOne acc.2 cacheId) rest

/-- The `cacheIds.forEach(cacheId => { evicted ||= cache.evict(...) })`
loop: `||=` short-circuits, so once `evicted` is true the store's evict
is no longer invoked. -/
def evictLoop (es : EvStore) (ids : List String) : Bool × EvStore :=
  evictLoopGo (false, es) ids

/-- The store-level sub-identifiers `evict` computes for a key: one per
top-level field selection of the key's operation, via
`cache.policies.getStoreFieldName` (the parameter `sfn`, already closed
over this query's variables). -/
def evictCacheIds (sfn : String → String) (query : CacheKey) : List String :=
  (query.query.selections.filter Selection.isFieldSel).map
    (fun fieldNode => sfn fieldNode.selName)

/-- `evict(query)`, with `sfn` standing for
`cache.policies.getStoreFieldName` applied to this query's variables.
In read-only mode it logs (in-scope variables only) and returns false.
Otherwise it computes the cache ids of the top-level field selections and
runs the eviction loop.  Both the success log and the error log reference
the identifier `queryName`, which is not defined anywhere in the module:
with debug enabled the success log throws a `ReferenceError`, the catch
block's log throws the same `ReferenceError` again, and that one
propagates.  With debug disabled nothing throws and the loop result is
returned; a normal fall-through past the catch would return `undefined`
(`none`). -/
def cmEvict (debug readOnly : Bool) (sfn : String → String) (es : EvStore)
    (query : CacheKey) : Except JsErr (Option Bool × EvStore) :=
  if readOnly then .ok (some false, es)
  else
    let cacheIds := evictCacheIds sfn query
    let r := evictLoop es cacheIds
    if debug then .error .referenceError
    else .ok (some r.1, r.2)

/-! ### SynchronizationOrchestrator — `WatchedMutationLink` -/

/-- An intercepted operation: its document, its variables, and its
context (`isOptimistic(context)` and `context.optimisticResponse`,
modelled from the spec's context contract since the utils source is not
part of the snapshot). -/
structure Operation where
  query : Doc
  vars : Val
  optimistic : Bool
  optimisticResponse : Val

/-- A transport result: whether the operation succeeded
(`isSuccessfulQuery`/`isSuccessfulMutation` vs `isFailedMutation`,
modelled from the spec's succeeded/failed classification since the utils
source is not part of the snapshot) and the raw result value handed to
`updateQueriesAfterMutation`. -/
structure OpResult where
  ok : Bool
  payload : Val

/-- The link's mutable state: the underlying cache store, the query-key
tracker and the inflight optimistic snapshots. -/
structure LinkState where
  store : Store
  tracker : QState
  snaps : SnapStore
deriving DecidableEq, Repr

/-- Modelled from the spec: `getQueryName` of the utils module extracts
the main definition's name (the orchestrator's own fallback for a
missing name is the empty string, line 148 of the source). -/
def getQueryName (d : Doc) : String := d.name.getD ""

/-- `createKey(operation)` of the cache manager. -/
def cmCreateKey (operation : Operation) : CacheKey :=
  ⟨operation.query, operation.vars⟩

/-- `isQueryRelated`: whether any watched mutation registered this query
name. -/
def isQueryRelated (reg : Registry) (operationName : String) : Bool :=
  (getAllRegisteredQueryNames reg).any (fun queryName => decide (queryName = operationName))

/-- `getCachedQueryKeysToUpdate`: all tracked cache keys of all query
names registered for this mutation, concatenated in registration order. -/
def getCachedQueryKeysToUpdate (reg : Registry) (tr : QState) (mutationName : String) :
    List CacheKey :=
  (getRegisteredQueryNames reg mutationName).foldl
    (fun queryCacheKeyList queryName =>
      queryCacheKeyList ++ getQueryKeysToUpdate tr queryName) []

/-- `getUpdateAfterMutation`: read the cached data for one key; on a
falsy read deregister the key (no update), otherwise invoke the
registered update transform and keep its present result as an item to
write.  Looking up an unregistered (mutation, query) pair yields
`undefined`, which the source then calls — a `TypeError`. -/
def getUpdateAfterMutation (reg : Registry) (st : LinkState)
    (mutationOperation : Operation) (mutationData : Val) (queryKey : CacheKey) :
    Except JsErr (LinkState × Option (CacheKey × Val)) :=
  let queryName := getQueryName queryKey.query
  match cmRead st.store queryKey with
  | none =>
      (removeQuery st.tracker queryName queryKey).map
        (fun tr => ({ st with tracker := tr }, none))
  | some v =>
      if v.truthy = false then
        (removeQuery st.tracker queryName queryKey).map
          (fun tr => ({ st with tracker := tr }, none))
      else
        let mutationName := getQueryName mutationOperation.query
        match getUpdateFn reg mutationName queryName with
        | none => .error .typeError
        | some updateQueryCb =>
            match updateQueryCb
                ⟨mutationName, mutationOperation.vars, mutationData,
                 queryName, queryKey.vars, v⟩ with
            | some updatedData => .ok (st, some (queryKey, updatedData))
            | none => .ok (st, none)

/-- The reduce of `updateQueriesAfterMutation`: fold
`getUpdateAfterMutation` over the affected keys, threading the link
state (tracker removals) and accumulating the items to write. -/
def collectUpdates (reg : Registry) (mutationOperation : Operation) (mutationData : Val) :
    LinkState → List (CacheKey × Val) → List CacheKey →
    Except JsErr (LinkState × List (CacheKey × Val))
  | st, items, [] => .ok (st, items)
  | st, items, queryKey :: rest =>
      match getUpdateAfterMutation reg st mutationOperation mutationData queryKey with
      | .error e => .error e
      | .ok (st', none) => collectUpdates reg mutationOperation mutationData st' items rest
      | .ok (st', some item) =>
          collectUpdates reg mutationOperation mutationData st' (items ++ [item]) rest

/-- The `performTransaction` body: write every collected item (our store
model runs the batch immediately). -/
def writeItems (readOnly : Bool) (s : Store) (items : List (CacheKey × Val)) : Store :=
  items.foldl (fun acc item => cmWrite readOnly acc item.1 item.2) s

/-- `updateQueriesAfterMutation`: collect the updates for every affected
key, then write them all inside one transaction. -/
def updateQueriesAfterMutation (reg : Registry) (readOnly : Bool) (st : LinkState)
    (operation : Operation) (operationName : String) (result : Val) :
    Except JsErr LinkState :=
  let cachedQueryToUpdateKeys := getCachedQueryKeysToUpdate reg st.tracker operationName
  (collectUpdates reg operation result st [] cachedQueryToUpdateKeys).map
    (fun p => { p.1 with store := writeItems readOnly p.1.store p.2 })

/-- `addOptimisticRequest`: snapshot the current cached state of every
affected key. -/
def addOptimisticRequest (reg : Registry) (st : LinkState) (operationName : String) :
    LinkState :=
  let cachedQueryToUpdateKeys := getCachedQueryKeysToUpdate reg st.tracker operationName
  { st with
    snaps := cachedQueryToUpdateKeys.foldl
      (fun ss queryKey => snapSet ss (.ck queryKey) (cmRead st.store queryKey)) st.snaps }

/-- `clearOptimisticRequest`: store the absent marker for the given
snapshot key.  (The success path of `request` passes an operation *name*
here, hence the `SnapKey` argument type.) -/
def clearOptimisticRequest (st : LinkState) (queryKey : SnapKey) : LinkState :=
  { st with snaps := snapSet st.snaps queryKey none }

/-- The per-key body of `revertOptimisticRequest`: write back the truthy
before-state if there is one, then clear the key's snapshot. -/
def revertStep (readOnly : Bool) (s : LinkState) (queryKey : CacheKey) : LinkState :=
  let s' :=
    match getBeforeState s.snaps (.ck queryKey) with
    | some v =>
        if v.truthy then { s with store := cmWrite readOnly s.store queryKey v } else s
    | none => s
  clearOptimisticRequest s' (.ck queryKey)

/-- `revertOptimisticRequest`: run `revertStep` over every affected key. -/
def revertOptimisticRequest (reg : Registry) (readOnly : Bool) (st : LinkState)
    (operationName : String) : LinkState :=
  (getCachedQueryKeysToUpdate reg st.tracker operationName).foldl (revertStep readOnly) st

/-- `addRelatedQuery`: track this operation's cache key under its query
name. -/
def addRelatedQuery (st : LinkState) (queryName : String) (operation : Operation) :
    LinkState :=
  { st with tracker := addQuery st.tracker queryName (cmCreateKey operation) }

/-- The entry half of `request` (before forwarding): on an optimistic
watched operation, snapshot the affected keys and speculatively apply the
predicted result `{ data: context.optimisticResponse }`. -/
def requestEnter (reg : Registry) (readOnly : Bool) (st : LinkState)
    (operation : Operation) : Except JsErr LinkState :=
  let operationName := (operation.query.name).getD ""
  if operation.optimistic && isWatched reg operationName then
    updateQueriesAfterMutation reg readOnly (addOptimisticRequest reg st operationName)
      operation operationName (Val.objCons "data" operation.optimisticResponse Val.objNil)
  else .ok st

/-- The result half of `request` (the `observer.map` callback): classify
the result and drive tracking, clearing, committing or reverting.  The
returned result itself is passed through unmodified. -/
def requestResult (reg : Registry) (readOnly : Bool) (st : LinkState)
    (operation : Operation) (result : OpResult) : Except JsErr LinkState :=
  let operationName := (operation.query.name).getD ""
  if decide (operation.query.operation = .query) && result.ok
      && isQueryRelated reg operationName then
    .ok (addRelatedQuery st operationName operation)
  else if decide (operation.query.operation = .mutation) && result.ok
      && isWatched reg operationName then
    if operation.optimistic then
      .ok (clearOptimisticRequest st (.name operationName))
    else
      updateQueriesAfterMutation reg readOnly st operation operationName result.payload
  else if decide (operation.query.operation = .mutation) && !result.ok
      && isWatched reg operationName && operation.optimistic then
    .ok (revertOptimisticRequest reg readOnly st operationName)
  else
    .ok st

/-- One full operation lifecycle through the link: the entry phase, then
the result phase on the transport's single result. -/
def processOp (reg : Registry) (readOnly : Bool) (st : LinkState)
    (operation : Operation) (result : OpResult) : Except JsErr LinkState :=
  match requestEnter reg readOnly st operation with
  | .error e => .error e
  | .ok st1 => requestResult reg readOnly st1 operation result

/-! ### Well-formedness of tracker states

States the orchestrator itself builds satisfy this: entry names are
distinct, each per-name key list is duplicate-free (`addQuery`
de-duplicates), and a key is tracked under the name of its own document
(`addRelatedQuery` registers the operation's key under the operation's
name). -/

/-- Decidable well-formedness of a tracker state. -/
def trackerWF (tr : QState) : Bool :=
  decide (tr.map Prod.fst).Nodup &&
  tr.all (fun p => decide p.2.Nodup &&
    p.2.all (fun k => decide (k.query.name = some p.1)))

/-- A key's cached value, if present, is truthy (reads that fail are
allowed).  Used to state the round-trip property away from the falsy
corner values (`null`, `0`, `""`, `false`) that a GraphQL query result
object never takes. -/
def presentTruthy (σ : Store) (j : CacheKey) : Bool :=
  match cmRead σ j with
  | none => true
  | some v => v.truthy

/-! ### A concrete scenario

The spec's running example: mutation AddItem is registered as affecting
query ListItems with an appending transform; the cache is seeded with
one tracked ListItems key holding `{items:[A]}`. -/

/-- Build a JSON array value from a list. -/
def arrOfList (xs : List Val) : Val := xs.foldr .arrCons .arrNil

/-- The object `{items: [...]}`. -/
def itemsObj (xs : List Val) : Val := .objCons "items" (arrOfList xs) .objNil

/-- Append one element to a JSON array value. -/
def arrAppend : Val → Val → Val
  | .arrCons h t, item => .arrCons h (arrAppend t item)
  | _, item => .arrCons item .arrNil

/-- The ListItems query document. -/
def listItemsDoc : Doc := ⟨some "ListItems", .query, [.field "items"]⟩

/-- The AddItem mutation document. -/
def addItemDoc : Doc := ⟨some "AddItem", .mutation, [.field "addItem"]⟩

/-- The tracked cache key for ListItems (no variables). -/
def listItemsKey : CacheKey := ⟨listItemsDoc, .vnull⟩

/-- The appending update transform of the scenario: reads the new item
from `mutation.result.data.AddItem` and appends it to the cached
`items`. -/
def addItemTransform : UpdateFn := fun inp =>
  match inp.mutationResult.getField "data" with
  | some d =>
      match d.getField "AddItem" with
      | some item =>
          match inp.queryResult.getField "items" with
          | some arr => some (.objCons "items" (arrAppend arr item) .objNil)
          | none => none
      | none => none
  | none => none

/-- The scenario registry: AddItem affects ListItems via the appending
transform. -/
def scenarioReg : Registry := [("AddItem", [("ListItems", addItemTransform)])]

/-- The scenario tracker: the ListItems key has been observed. -/
def scenarioTracker : QState := [("ListItems", [listItemsKey])]

/-- The scenario link state: cache seeded with `{items:[A]}`. -/
def scenarioSt : LinkState :=
  ⟨[(listItemsKey, itemsObj [.vstr "A"])], scenarioTracker, []⟩

/-- The optimistic AddItem operation predicting item B. -/
def scenarioOp : Operation :=
  ⟨addItemDoc, .vnull, true, .objCons "AddItem" (.vstr "B") .objNil⟩

/-- The successful server result carrying item B-server. -/
def scenarioResOk : OpResult :=
  ⟨true, .objCons "data" (.objCons "AddItem" (.vstr "B-server") .objNil) .objNil⟩

/-- The failed server result. -/
def scenarioResFail : OpResult := ⟨false, .vnull⟩

/-- A second tracked ListItems key (different variables). -/
def otherListItemsKey : CacheKey := ⟨listItemsDoc, .vstr "y"⟩

/-- A state with an empty cache but two tracked ListItems keys: reading
either key fails. -/
def twoKeyState : LinkState :=
  ⟨[], [("ListItems", [listItemsKey, otherListItemsKey])], []⟩

/-- The tracker of `twoKeyState` after the first key is deregistered. -/
def twoKeyTrackerAfter : QState := [("ListItems", [otherListItemsKey])]

/-! ## Lemmas -/

theorem alistFind_set_self {κ ν : Type} [DecidableEq κ] (l : List (κ × ν)) (k : κ) (v : ν) :
    alistFind (alistSet l k v) k = some v := by
  induction l with
  | nil => simp [alistSet, alistFind]
  | cons hd tl ih =>
    obtain ⟨k', v'⟩ := hd
    by_cases h : k' = k <;> simp [alistSet, alistFind, h, ih]

theorem alistFind_set_other {κ ν : Type} [DecidableEq κ] (l : List (κ × ν)) (k k₀ : κ)
    (v : ν) (hne : k ≠ k₀) : alistFind (alistSet l k v) k₀ = alistFind l k₀ := by
  induction l with
  | nil => simp [alistSet, alistFind, hne]
  | cons hd tl ih =>
    obtain ⟨k', v'⟩ := hd
    by_cases h : k' = k
    · subst h; simp [alistSet, alistFind, hne]
    · simp [alistSet, alistFind, h, ih]

theorem alistFind_set_isSome {κ ν : Type} [DecidableEq κ] (l : List (κ × ν)) (k k₀ : κ)
    (v : ν) (hk : (alistFind l k).isSome) :
    (alistFind (alistSet l k v) k₀).isSome = (alistFind l k₀).isSome := by
  by_cases h : k = k₀
  · subst h; simp [alistFind_set_self, hk]
  · simp [alistFind_set_other l k k₀ v h]

theorem storeRead_write_self (s : Store) (k : CacheKey) (v : Val) :
    storeRead (storeWrite s k v) k = some v := alistFind_set_self s k v

theorem storeRead_write_other (s : Store) (k k₀ : CacheKey) (v : Val) (h : k ≠ k₀) :
    storeRead (storeWrite s k v) k₀ = storeRead s k₀ := alistFind_set_other s k k₀ v h

theorem getBeforeState_set_self (ss : SnapStore) (k : SnapKey) (v : Option Val) :
    getBeforeState (snapSet ss k v) k = v := by
  simp [getBeforeState, snapSet, alistFind_set_self]

theorem getBeforeState_set_other (ss : SnapStore) (k k₀ : SnapKey) (v : Option Val)
    (h : k ≠ k₀) : getBeforeState (snapSet ss k v) k₀ = getBeforeState ss k₀ := by
  simp [getBeforeState, snapSet, alistFind_set_other ss k k₀ v h]

theorem linkState_eq (a b : LinkState) (h1 : a.store = b.store)
    (h2 : a.tracker = b.tracker) (h3 : a.snaps = b.snaps) : a = b := by
  cases a; cases b
  simp only at h1 h2 h3
  rw [h1, h2, h3]

theorem removeQuery_spec (tr : QState) (qn : String) (k : CacheKey)
    (h : (alistFind tr qn).isSome) :
    ∃ tr', removeQuery tr qn k = .ok tr'
      ∧ (∀ qn', getQueryKeysToUpdate tr' qn'
            = if qn' = qn
              then (getQueryKeysToUpdate tr qn).filter (fun x => decide (x ≠ k))
              else getQueryKeysToUpdate tr qn')
      ∧ (∀ qn', (alistFind tr' qn').isSome = (alistFind tr qn').isSome) := by
  obtain ⟨cur, hcur⟩ := Option.isSome_iff_exists.mp h
  have hget : getQueryKeysToUpdate tr qn = cur := by
    simp [getQueryKeysToUpdate, hcur]
  by_cases hk : k ∈ cur
  · have hlen : cur.length ≠ (cur.filter (fun x => decide (x ≠ k))).length := by
      intro heq
      rw [eq_comm, List.filter_length_eq_length] at heq
      have := heq k hk
      simp at this
    refine ⟨alistSet tr qn (cur.filter (fun x => decide (x ≠ k))), ?_, ?_, ?_⟩
    · simp only [removeQuery, hcur, hget]
      rw [if_pos hlen]
    · intro qn'
      by_cases hq : qn' = qn
      · subst hq
        simp [getQueryKeysToUpdate, alistFind_set_self, hget, hcur]
      · rw [if_neg hq]
        have hqn : qn ≠ qn' := fun e => hq e.symm
        simp [getQueryKeysToUpdate, alistFind_set_other tr qn qn' _ hqn]
    · intro qn'
      exact alistFind_set_isSome tr qn qn' _ (by simp [hcur])
  · have hfil : cur.filter (fun x => decide (x ≠ k)) = cur := by
      apply List.filter_eq_self.mpr
      intro a ha
      simp only [decide_eq_true_eq]
      intro e
      subst e
      exact hk ha
    refine ⟨tr, ?_, ?_, fun qn' => rfl⟩
    · simp only [removeQuery, hcur, hget, hfil]
      simp
    · intro qn'
      by_cases hq : qn' = qn
      · subst hq
        rw [if_pos rfl, hget, hfil]
      · rw [if_neg hq]

theorem getUpdateAfterMutation_fields (reg : Registry) (st : LinkState)
    (mutOp : Operation) (mdata : Val) (k : CacheKey) (st2 : LinkState)
    (it : Option (CacheKey × Val))
    (h : getUpdateAfterMutation reg st mutOp mdata k = .ok (st2, it)) :
    st2.store = st.store ∧ st2.snaps = st.snaps := by
  simp only [getUpdateAfterMutation] at h
  split at h
  · cases hr : removeQuery st.tracker (getQueryName k.query) k with
    | error e => rw [hr] at h; exact absurd h (by simp [Except.map])
    | ok tr =>
        rw [hr] at h
        simp only [Except.map, Except.ok.injEq, Prod.mk.injEq] at h
        obtain ⟨h1, _⟩ := h
        rw [← h1]
        exact ⟨rfl, rfl⟩
  · split at h
    · cases hr : removeQuery st.tracker (getQueryName k.query) k with
      | error e => rw [hr] at h; exact absurd h (by simp [Except.map])
      | ok tr =>
          rw [hr] at h
          simp only [Except.map, Except.ok.injEq, Prod.mk.injEq] at h
          obtain ⟨h1, _⟩ := h
          rw [← h1]
          exact ⟨rfl, rfl⟩
    · split at h
      · exact absurd h (by simp)
      · split at h
        · simp only [Except.ok.injEq, Prod.mk.injEq] at h
          obtain ⟨h1, _⟩ := h
          rw [← h1]
          exact ⟨rfl, rfl⟩
        · simp only [Except.ok.injEq, Prod.mk.injEq] at h
          obtain ⟨h1, _⟩ := h
          rw [← h1]
          exact ⟨rfl, rfl⟩

theorem collectUpdates_fields (reg : Registry) (mutOp : Operation) (mdata : Val) :
    ∀ (keys : List CacheKey) (st : LinkState) (items : List (CacheKey × Val))
      (st' : LinkState) (items' : List (CacheKey × Val)),
      collectUpdates reg mutOp mdata st items keys = .ok (st', items') →
      st'.store = st.store ∧ st'.snaps = st.snaps := by
  intro keys
  induction keys with
  | nil =>
      intro st items st' items' h
      simp only [collectUpdates, Except.ok.injEq, Prod.mk.injEq] at h
      obtain ⟨h1, _⟩ := h
      rw [← h1]
      exact ⟨rfl, rfl⟩
  | cons k rest ih =>
      intro st items st' items' h
      unfold collectUpdates at h
      cases hg : getUpdateAfterMutation reg st mutOp mdata k with
      | error e => rw [hg] at h; exact absurd h (by simp)
      | ok p =>
          obtain ⟨stM, it⟩ := p
          rw [hg] at h
          obtain ⟨hs, hn⟩ := getUpdateAfterMutation_fields reg st mutOp mdata k stM it hg
          cases it with
          | none =>
              obtain ⟨hs2, hn2⟩ := ih stM items st' items' h
              exact ⟨hs2.trans hs, hn2.trans hn⟩
          | some itv =>
              obtain ⟨hs2, hn2⟩ := ih stM (items ++ [itv]) st' items' h
              exact ⟨hs2.trans hs, hn2.trans hn⟩

theorem writeItems_readOnly (s : Store) (items : List (CacheKey × Val)) :
    writeItems true s items = s := by
  induction items generalizing s with
  | nil => rfl
  | cons it rest ih => exact ih s

theorem updateQueries_readOnly (reg : Registry) (st : LinkState) (op : Operation)
    (opName : String) (result : Val) :
    updateQueriesAfterMutation reg true st op opName result
      = (updateQueriesAfterMutation reg false st op opName result).map
          (fun s => { s with store := st.store }) := by
  unfold updateQueriesAfterMutation
  dsimp only
  cases hc : collectUpdates reg op result st []
      (getCachedQueryKeysToUpdate reg st.tracker opName) with
  | error e => rfl
  | ok p =>
      obtain ⟨st', items⟩ := p
      obtain ⟨hst, _⟩ := collectUpdates_fields reg op result _ st [] st' items hc
      simp only [Except.map]
      rw [writeItems_readOnly]
      exact congrArg Except.ok (linkState_eq _ _ hst rfl rfl)

theorem revertStep_tracker (ro : Bool) (s : LinkState) (k : CacheKey) :
    (revertStep ro s k).tracker = s.tracker := by
  unfold revertStep clearOptimisticRequest
  cases getBeforeState s.snaps (.ck k) with
  | none => rfl
  | some v =>
      by_cases hv : v.truthy = true
      · simp only [hv, if_true]
      · simp only [Bool.not_eq_true] at hv
        simp only [hv, Bool.false_eq_true, if_false]

theorem revertStep_snaps (ro : Bool) (s : LinkState) (k : CacheKey) :
    (revertStep ro s k).snaps = snapSet s.snaps (.ck k) none := by
  unfold revertStep clearOptimisticRequest
  cases getBeforeState s.snaps (.ck k) with
  | none => rfl
  | some v =>
      by_cases hv : v.truthy = true
      · simp only [hv, if_true]
      · simp only [Bool.not_eq_true] at hv
        simp only [hv, Bool.false_eq_true, if_false]

theorem revertStep_store_ro (s : LinkState) (k : CacheKey) :
    (revertStep true s k).store = s.store := by
  unfold revertStep clearOptimisticRequest cmWrite
  cases getBeforeState s.snaps (.ck k) with
  | none => rfl
  | some v =>
      by_cases hv : v.truthy = true
      · simp only [hv, if_true]
      · simp only [Bool.not_eq_true] at hv
        simp only [hv, Bool.false_eq_true, if_false]

theorem revertFold_tracker (ro : Bool) (keysL : List CacheKey) :
    ∀ s : LinkState, (keysL.foldl (revertStep ro) s).tracker = s.tracker := by
  induction keysL with
  | nil => intro s; rfl
  | cons k rest ih =>
      intro s
      rw [List.foldl_cons, ih, revertStep_tracker]

theorem revertFold_snaps (ro₁ ro₂ : Bool) (keysL : List CacheKey) :
    ∀ s₁ s₂ : LinkState, s₁.snaps = s₂.snaps →
      (keysL.foldl (revertStep ro₁) s₁).snaps = (keysL.foldl (revertStep ro₂) s₂).snaps := by
  induction keysL with
  | nil => intro _ _ h; exact h
  | cons k rest ih =>
      intro s₁ s₂ h
      rw [List.foldl_cons, List.foldl_cons]
      apply ih
      rw [revertStep_snaps, revertStep_snaps, h]

theorem revertFold_store_ro (keysL : List CacheKey) :
    ∀ s : LinkState, (keysL.foldl (revertStep true) s).store = s.store := by
  induction keysL with
  | nil => intro s; rfl
  | cons k rest ih =>
      intro s
      rw [List.foldl_cons, ih, revertStep_store_ro]

theorem revertOptimistic_readOnly (reg : Registry) (s : LinkState) (σ : Store)
    (opName : String) :
    revertOptimisticRequest reg true { s with store := σ } opName
      = { revertOptimisticRequest reg false s opName with store := σ } := by
  unfold revertOptimisticRequest
  apply linkState_eq
  · rw [revertFold_store_ro]
  · rw [revertFold_tracker, revertFold_tracker]
  · exact revertFold_snaps true false _ _ s rfl

theorem requestResult_readOnly (reg : Registry) (s : LinkState) (op : Operation)
    (r : OpResult) (σ : Store)
    (h : op.optimistic = true ∨ σ = s.store) :
    requestResult reg true { s with store := σ } op r
      = (requestResult reg false s op r).map (fun x => { x with store := σ }) := by
  unfold requestResult
  by_cases h1 : (decide (op.query.operation = .query) && r.ok
      && isQueryRelated reg ((op.query.name).getD "")) = true
  · rw [if_pos h1, if_pos h1]
    rfl
  · rw [if_neg h1, if_neg h1]
    by_cases h2 : (decide (op.query.operation = .mutation) && r.ok
        && isWatched reg ((op.query.name).getD "")) = true
    · rw [if_pos h2, if_pos h2]
      by_cases h3 : op.optimistic = true
      · rw [if_pos h3, if_pos h3]
        rfl
      · rw [if_neg h3, if_neg h3]
        have hσ : σ = s.store := by
          cases h with
          | inl hh => exact absurd hh h3
          | inr hh => exact hh
        subst hσ
        exact updateQueries_readOnly reg s op ((op.query.name).getD "") r.payload
    · rw [if_neg h2, if_neg h2]
      by_cases h4 : (decide (op.query.operation = .mutation) && !r.ok
          && isWatched reg ((op.query.name).getD "") && op.optimistic) = true
      · rw [if_pos h4, if_pos h4]
        simp only [Except.map]
        rw [revertOptimistic_readOnly]
      · rw [if_neg h4, if_neg h4]
        rfl

theorem requestEnter_readOnly (reg : Registry) (st : LinkState) (op : Operation) :
    requestEnter reg true st op
      = (requestEnter reg false st op).map (fun s => { s with store := st.store }) := by
  unfold requestEnter
  by_cases h : (op.optimistic && isWatched reg ((op.query.name).getD "")) = true
  · rw [if_pos h, if_pos h]
    exact updateQueries_readOnly reg (addOptimisticRequest reg st ((op.query.name).getD ""))
      op ((op.query.name).getD "") (Val.objCons "data" op.optimisticResponse Val.objNil)
  · rw [if_neg h, if_neg h]
    rfl

theorem processOp_readOnly_eq (reg : Registry) (st : LinkState) (op : Operation)
    (r : OpResult) :
    processOp reg true st op r
      = (processOp reg false st op r).map (fun s => { s with store := st.store }) := by
  unfold processOp
  rw [requestEnter_readOnly]
  cases he : requestEnter reg false st op with
  | error e => rfl
  | ok s1 =>
      simp only [Except.map]
      apply requestResult_readOnly
      by_cases ho : op.optimistic = true
      · exact Or.inl ho
      · right
        have hfalse : op.optimistic = false := by
          rw [Bool.not_eq_true] at ho
          exact ho
        have hen : requestEnter reg false st op = .ok st := by
          unfold requestEnter
          rw [if_neg (by simp [hfalse])]
        rw [hen] at he
        have : st = s1 := by injection he
        rw [← this]

theorem alistFind_mem {κ ν : Type} [DecidableEq κ] (l : List (κ × ν)) (k : κ) (v : ν)
    (h : alistFind l k = some v) : (k, v) ∈ l := by
  induction l with
  | nil => exact Option.noConfusion h
  | cons hd tl ih =>
      obtain ⟨k', v'⟩ := hd
      rw [alistFind] at h
      by_cases hk : k' = k
      · rw [if_pos hk] at h
        injection h with h
        subst hk
        subst h
        exact List.mem_cons_self _ _
      · rw [if_neg hk] at h
        exact List.mem_cons_of_mem _ (ih h)

theorem trackerWF_entry (tr : QState) (hwf : trackerWF tr = true) (qn : String)
    (l : List CacheKey) (hfind : alistFind tr qn = some l) :
    l.Nodup ∧ ∀ j ∈ l, j.query.name = some qn := by
  have hmem := alistFind_mem tr qn l hfind
  unfold trackerWF at hwf
  rw [Bool.and_eq_true] at hwf
  obtain ⟨_, hall⟩ := hwf
  rw [List.all_eq_true] at hall
  have hthis := hall (qn, l) hmem
  rw [Bool.and_eq_true] at hthis
  obtain ⟨h1, h2⟩ := hthis
  refine ⟨of_decide_eq_true h1, ?_⟩
  intro j hj
  rw [List.all_eq_true] at h2
  exact of_decide_eq_true (h2 j hj)

theorem trackerWF_name (tr : QState) (hwf : trackerWF tr = true) (qn : String)
    (j : CacheKey) (hj : j ∈ getQueryKeysToUpdate tr qn) : j.query.name = some qn := by
  unfold getQueryKeysToUpdate at hj
  cases hfind : alistFind tr qn with
  | none => rw [hfind] at hj; exact absurd hj (by simp)
  | some l =>
      rw [hfind] at hj
      exact (trackerWF_entry tr hwf qn l hfind).2 j hj

theorem trackerWF_getQueryName (tr : QState) (hwf : trackerWF tr = true) (qn : String)
    (j : CacheKey) (hj : j ∈ getQueryKeysToUpdate tr qn) : getQueryName j.query = qn := by
  unfold getQueryName
  rw [trackerWF_name tr hwf qn j hj]
  rfl

theorem trackerWF_list_nodup (tr : QState) (hwf : trackerWF tr = true) (qn : String) :
    (getQueryKeysToUpdate tr qn).Nodup := by
  unfold getQueryKeysToUpdate
  cases hfind : alistFind tr qn with
  | none => simp
  | some l => exact (trackerWF_entry tr hwf qn l hfind).1

theorem mem_getQueryKeys_isSome (tr : QState) (qn : String) (j : CacheKey)
    (hj : j ∈ getQueryKeysToUpdate tr qn) : (alistFind tr qn).isSome := by
  unfold getQueryKeysToUpdate at hj
  cases hfind : alistFind tr qn with
  | none => rw [hfind] at hj; exact absurd hj (by simp)
  | some l => rfl

theorem foldl_append_eq {α β : Type} (f : α → List β) (names : List α) :
    ∀ acc : List β, names.foldl (fun a n => a ++ f n) acc = acc ++ names.flatMap f := by
  induction names with
  | nil => intro acc; simp
  | cons n rest ih =>
      intro acc
      rw [List.foldl_cons, ih, List.flatMap_cons, List.append_assoc]

theorem getCachedQueryKeys_eq_flatMap (reg : Registry) (tr : QState) (m : String) :
    getCachedQueryKeysToUpdate reg tr m
      = (getRegisteredQueryNames reg m).flatMap (fun qn => getQueryKeysToUpdate tr qn) := by
  unfold getCachedQueryKeysToUpdate
  rw [foldl_append_eq]
  rfl

theorem keys_nodup (reg : Registry) (tr : QState) (m : String)
    (hwf : trackerWF tr = true)
    (hnd : (getRegisteredQueryNames reg m).Nodup) :
    (getCachedQueryKeysToUpdate reg tr m).Nodup := by
  rw [getCachedQueryKeys_eq_flatMap]
  rw [List.nodup_flatMap]
  constructor
  · intro qn _
    exact trackerWF_list_nodup tr hwf qn
  · apply List.Pairwise.imp ?_ hnd
    intro a b hab j hja hjb
    have h1 := trackerWF_name tr hwf a j hja
    have h2 := trackerWF_name tr hwf b j hjb
    rw [h1] at h2
    exact hab (Option.some.inj h2)

theorem snapFold_get (f : CacheKey → Option Val) (keysL : List CacheKey) :
    ∀ (ss : SnapStore) (k : CacheKey),
      getBeforeState
          (keysL.foldl (fun ss2 kk => snapSet ss2 (.ck kk) (f kk)) ss) (.ck k)
        = if k ∈ keysL then f k else getBeforeState ss (.ck k) := by
  induction keysL with
  | nil => intro ss k; simp
  | cons k0 rest ih =>
      intro ss k
      rw [List.foldl_cons, ih]
      by_cases hk : k ∈ rest
      · rw [if_pos hk, if_pos (List.mem_cons_of_mem k0 hk)]
      · rw [if_neg hk]
        by_cases he : k = k0
        · subst he
          rw [if_pos (List.mem_cons_self k rest), getBeforeState_set_self]
        · rw [if_neg (by simp [he, hk])]
          apply getBeforeState_set_other
          intro hcontra
          injection hcontra with hcc
          exact he hcc.symm

theorem collectUpdates_run (reg : Registry) (mutOp : Operation) (mdata : Val) (σ : Store) :
    ∀ (todo : List CacheKey) (st : LinkState) (items : List (CacheKey × Val)),
      st.store = σ →
      (∀ j ∈ todo, jsTruthy (cmRead σ j) = false →
        (alistFind st.tracker (getQueryName j.query)).isSome = true) →
      (∀ j ∈ todo, jsTruthy (cmRead σ j) = true →
        (getUpdateFn reg (getQueryName mutOp.query) (getQueryName j.query)).isSome = true) →
      (∀ j ∈ todo, ∀ qn, j ∈ getQueryKeysToUpdate st.tracker qn →
        getQueryName j.query = qn) →
      ∃ (stB : LinkState) (newItems : List (CacheKey × Val)),
        collectUpdates reg mutOp mdata st items todo = .ok (stB, items ++ newItems)
        ∧ (∀ p ∈ newItems, p.1 ∈ todo ∧ jsTruthy (cmRead σ p.1) = true)
        ∧ (∀ qn, getQueryKeysToUpdate stB.tracker qn
            = (getQueryKeysToUpdate st.tracker qn).filter
                (fun x => !(decide (x ∈ todo) && !(jsTruthy (cmRead σ x))))) := by
  intro todo
  induction todo with
  | nil =>
      intro st items hσ _ _ _
      refine ⟨st, [], by simp [collectUpdates], by simp, ?_⟩
      intro qn
      refine (List.filter_eq_self.mpr ?_).symm
      intro a _
      simp
  | cons k rest ih =>
      intro st items hσ h1 h2 h3
      by_cases hT : jsTruthy (cmRead σ k) = true
      · -- truthy read: the transform runs, the tracker is untouched
        obtain ⟨v, hv, hvt⟩ : ∃ v, cmRead σ k = some v ∧ v.truthy = true := by
          cases hc : cmRead σ k with
          | none => rw [hc] at hT; exact absurd hT (by simp [jsTruthy])
          | some v =>
              refine ⟨v, rfl, ?_⟩
              rw [hc] at hT
              simpa [jsTruthy] using hT
        obtain ⟨fn, hfn⟩ := Option.isSome_iff_exists.mp
          (h2 k (List.mem_cons_self _ _) hT)
        have hread : cmRead st.store k = some v := by rw [hσ]; exact hv
        cases hit : fn ⟨getQueryName mutOp.query, mutOp.vars, mdata,
            getQueryName k.query, k.vars, v⟩ with
        | none =>
            have hgu : getUpdateAfterMutation reg st mutOp mdata k = .ok (st, none) := by
              simp only [getUpdateAfterMutation, hread]
              rw [if_neg (by simp [hvt]), hfn]
              dsimp only
              rw [hit]
            obtain ⟨stB, newItems, hok, hni, hchar⟩ :=
              ih st items hσ
                (fun j hj => h1 j (List.mem_cons_of_mem k hj))
                (fun j hj => h2 j (List.mem_cons_of_mem k hj))
                (fun j hj => h3 j (List.mem_cons_of_mem k hj))
            refine ⟨stB, newItems, ?_, ?_, ?_⟩
            · unfold collectUpdates
              rw [hgu]
              exact hok
            · intro p hp
              obtain ⟨hm, ht⟩ := hni p hp
              exact ⟨List.mem_cons_of_mem k hm, ht⟩
            · intro qn
              rw [hchar qn]
              apply List.filter_congr
              intro x _
              by_cases hx : x = k
              · subst hx
                rw [hT]
                simp
              · have hmm : (x ∈ k :: rest) ↔ (x ∈ rest) := by
                  rw [List.mem_cons]
                  exact ⟨fun h => h.resolve_left hx, Or.inr⟩
                rw [decide_eq_decide.mpr hmm]
        | some d =>
            have hgu : getUpdateAfterMutation reg st mutOp mdata k
                = .ok (st, some (k, d)) := by
              simp only [getUpdateAfterMutation, hread]
              rw [if_neg (by simp [hvt]), hfn]
              dsimp only
              rw [hit]
            obtain ⟨stB, newItems, hok, hni, hchar⟩ :=
              ih st (items ++ [(k, d)]) hσ
                (fun j hj => h1 j (List.mem_cons_of_mem k hj))
                (fun j hj => h2 j (List.mem_cons_of_mem k hj))
                (fun j hj => h3 j (List.mem_cons_of_mem k hj))
            refine ⟨stB, (k, d) :: newItems, ?_, ?_, ?_⟩
            · unfold collectUpdates
              rw [hgu]
              dsimp only
              rw [hok]
              simp
            · intro p hp
              rw [List.mem_cons] at hp
              cases hp with
              | inl hp =>
                  subst hp
                  exact ⟨List.mem_cons_self _ _, hT⟩
              | inr hp =>
                  obtain ⟨hm, ht⟩ := hni p hp
                  exact ⟨List.mem_cons_of_mem k hm, ht⟩
            · intro qn
              rw [hchar qn]
              apply List.filter_congr
              intro x _
              by_cases hx : x = k
              · subst hx
                rw [hT]
                simp
              · have hmm : (x ∈ k :: rest) ↔ (x ∈ rest) := by
                  rw [List.mem_cons]
                  exact ⟨fun h => h.resolve_left hx, Or.inr⟩
                rw [decide_eq_decide.mpr hmm]
      · -- falsy read: the key is deregistered, no item
        rw [Bool.not_eq_true] at hT
        have hsome := h1 k (List.mem_cons_self _ _) hT
        have hkname := fun qn hq => h3 k (List.mem_cons_self _ _) qn hq
        obtain ⟨tr', hok, hchar, hdom⟩ :=
          removeQuery_spec st.tracker (getQueryName k.query) k hsome
        have hgu : getUpdateAfterMutation reg st mutOp mdata k
            = .ok ({ st with tracker := tr' }, none) := by
          simp only [getUpdateAfterMutation]
          cases hc : cmRead st.store k with
          | none => rw [hok]; rfl
          | some v =>
              have hvt : v.truthy = false := by
                rw [hσ] at hc
                rw [hc] at hT
                simpa [jsTruthy] using hT
              dsimp only
              rw [if_pos hvt, hok]
              rfl
        obtain ⟨stB, newItems, hokB, hni, hcharB⟩ :=
          ih ⟨st.store, tr', st.snaps⟩ items hσ
            (fun j hj hf => by
              rw [hdom (getQueryName j.query)]
              exact h1 j (List.mem_cons_of_mem k hj) hf)
            (fun j hj => h2 j (List.mem_cons_of_mem k hj))
            (fun j hj qn hq => by
              have hq' : j ∈ getQueryKeysToUpdate st.tracker qn := by
                rw [hchar qn] at hq
                by_cases hqe : qn = getQueryName k.query
                · rw [if_pos hqe] at hq
                  rw [hqe]
                  exact (List.mem_filter.mp hq).1
                · rw [if_neg hqe] at hq
                  exact hq
              exact h3 j (List.mem_cons_of_mem k hj) qn hq')
        refine ⟨stB, newItems, ?_, ?_, ?_⟩
        · unfold collectUpdates
          rw [hgu]
          exact hokB
        · intro p hp
          obtain ⟨hmem, htr⟩ := hni p hp
          exact ⟨List.mem_cons_of_mem k hmem, htr⟩
        · intro qn
          rw [hcharB qn]
          by_cases hqe : qn = getQueryName k.query
          · have htr' : getQueryKeysToUpdate
                (⟨st.store, tr', st.snaps⟩ : LinkState).tracker qn
                = (getQueryKeysToUpdate st.tracker qn).filter
                    (fun x => decide (x ≠ k)) := by
              show getQueryKeysToUpdate tr' qn = _
              rw [hchar qn, if_pos hqe, hqe]
            rw [htr', List.filter_filter]
            apply List.filter_congr
            intro x _
            by_cases hx : x = k
            · subst hx
              rw [hT]
              simp
            · have hmm : (x ∈ k :: rest) ↔ (x ∈ rest) := by
                rw [List.mem_cons]
                exact ⟨fun h => h.resolve_left hx, Or.inr⟩
              have hmm2 : decide (x ∈ k :: rest) = decide (x ∈ rest) :=
                decide_eq_decide.mpr hmm
              have hne : decide (x ≠ k) = true := by simp [hx]
              rw [hmm2, hne]
              simp
          · have htr' : getQueryKeysToUpdate
                (⟨st.store, tr', st.snaps⟩ : LinkState).tracker qn
                = getQueryKeysToUpdate st.tracker qn := by
              show getQueryKeysToUpdate tr' qn = _
              rw [hchar qn, if_neg hqe]
            rw [htr']
            apply List.filter_congr
            intro x hxmem
            have hx : x ≠ k := by
              intro he
              subst he
              exact hqe (hkname qn hxmem).symm
            have hmm : (x ∈ k :: rest) ↔ (x ∈ rest) := by
              rw [List.mem_cons]
              exact ⟨fun h => h.resolve_left hx, Or.inr⟩
            rw [decide_eq_decide.mpr hmm]

theorem flatMap_congr {α β : Type} (l : List α) (f g : α → List β)
    (h : ∀ a ∈ l, f a = g a) : l.flatMap f = l.flatMap g := by
  induction l with
  | nil => rfl
  | cons a rest ih =>
      rw [List.flatMap_cons, List.flatMap_cons, h a (List.mem_cons_self _ _),
        ih (fun b hb => h b (List.mem_cons_of_mem a hb))]

theorem writeItems_read_other (ro : Bool) (items : List (CacheKey × Val)) :
    ∀ (s : Store) (k : CacheKey), (∀ p ∈ items, p.1 ≠ k) →
      storeRead (writeItems ro s items) k = storeRead s k := by
  induction items with
  | nil => intro s k _; rfl
  | cons p rest ih =>
      intro s k hall
      have hcons : writeItems ro s (p :: rest) = writeItems ro (cmWrite ro s p.1 p.2) rest :=
        rfl
      rw [hcons, ih _ k (fun q hq => hall q (List.mem_cons_of_mem p hq))]
      unfold cmWrite
      cases ro with
      | true => rfl
      | false =>
          exact storeRead_write_other s p.1 k p.2 (hall p (List.mem_cons_self _ _))

theorem revertStep_read_other (ro : Bool) (s : LinkState) (j k : CacheKey) (h : j ≠ k) :
    storeRead ((revertStep ro s j).store) k = storeRead s.store k := by
  unfold revertStep clearOptimisticRequest cmWrite
  cases getBeforeState s.snaps (.ck j) with
  | none => rfl
  | some v =>
      by_cases hv : v.truthy = true
      · cases ro with
        | true => simp [hv]
        | false => simp [hv, storeRead_write_other s.store j k v h]
      · rw [Bool.not_eq_true] at hv
        simp [hv]

theorem revertFold_read_not_mem (ro : Bool) (keysL : List CacheKey) :
    ∀ (s : LinkState) (k : CacheKey), k ∉ keysL →
      storeRead ((keysL.foldl (revertStep ro) s).store) k = storeRead s.store k := by
  induction keysL with
  | nil => intro s k _; rfl
  | cons j restL ih =>
      intro s k hk
      rw [List.mem_cons, not_or] at hk
      obtain ⟨hkj, hkr⟩ := hk
      rw [List.foldl_cons, ih _ k hkr]
      exact revertStep_read_other ro s j k (fun he => hkj (he.symm))

theorem revertFold_snaps_not_mem (ro : Bool) (keysL : List CacheKey) :
    ∀ (s : LinkState) (k : CacheKey), k ∉ keysL →
      getBeforeState ((keysL.foldl (revertStep ro) s).snaps) (.ck k)
        = getBeforeState s.snaps (.ck k) := by
  induction keysL with
  | nil => intro s k _; rfl
  | cons j restL ih =>
      intro s k hk
      rw [List.mem_cons, not_or] at hk
      obtain ⟨hkj, hkr⟩ := hk
      rw [List.foldl_cons, ih _ k hkr, revertStep_snaps]
      apply getBeforeState_set_other
      intro he
      injection he with he
      exact hkj he.symm

theorem revertFold_restore (w : CacheKey → Val) (keysL : List CacheKey) :
    ∀ (s : LinkState), keysL.Nodup →
      (∀ j ∈ keysL, getBeforeState s.snaps (.ck j) = some (w j) ∧ (w j).truthy = true) →
      ∀ k ∈ keysL,
        storeRead ((keysL.foldl (revertStep false) s).store) k = some (w k)
        ∧ getBeforeState ((keysL.foldl (revertStep false) s).snaps) (.ck k) = none := by
  induction keysL with
  | nil => intro s _ _ k hk; exact absurd hk (List.not_mem_nil k)
  | cons j restL ih =>
      intro s hnd hsnap k hk
      rw [List.nodup_cons] at hnd
      obtain ⟨hjnot, hndr⟩ := hnd
      obtain ⟨hbs, hwt⟩ := hsnap j (List.mem_cons_self _ _)
      have hstep : revertStep false s j
          = ⟨storeWrite s.store j (w j), s.tracker, snapSet s.snaps (.ck j) none⟩ := by
        unfold revertStep clearOptimisticRequest cmWrite
        rw [hbs]
        simp [hwt]
      rw [List.foldl_cons, hstep]
      have hsnap2 : ∀ j' ∈ restL,
          getBeforeState
              ((⟨storeWrite s.store j (w j), s.tracker,
                snapSet s.snaps (.ck j) none⟩ : LinkState).snaps) (.ck j')
            = some (w j') ∧ (w j').truthy = true := by
        intro j' hj'
        have hne : (SnapKey.ck j) ≠ (SnapKey.ck j') := by
          intro he
          injection he with he
          exact hjnot (he ▸ hj')
        show getBeforeState (snapSet s.snaps (.ck j) none) (.ck j') = _ ∧ _
        rw [getBeforeState_set_other _ _ _ _ hne]
        exact hsnap j' (List.mem_cons_of_mem j hj')
      rw [List.mem_cons] at hk
      cases hk with
      | inl hkj =>
          subst hkj
          constructor
          · rw [revertFold_read_not_mem false restL _ k hjnot]
            exact storeRead_write_self s.store k (w k)
          · rw [revertFold_snaps_not_mem false restL _ k hjnot]
            exact getBeforeState_set_self s.snaps (.ck k) none
      | inr hkr =>
          exact ih ⟨storeWrite s.store j (w j), s.tracker,
            snapSet s.snaps (.ck j) none⟩ hndr hsnap2 k hkr

theorem mem_cachedKeys_name (reg : Registry) (tr : QState) (m : String)
    (hwf : trackerWF tr = true) (j : CacheKey)
    (hj : j ∈ getCachedQueryKeysToUpdate reg tr m) :
    (alistFind tr (getQueryName j.query)).isSome = true := by
  rw [getCachedQueryKeys_eq_flatMap] at hj
  rw [List.mem_flatMap] at hj
  obtain ⟨qn, hqn, hjq⟩ := hj
  have hname := trackerWF_getQueryName tr hwf qn j hjq
  rw [hname]
  exact mem_getQueryKeys_isSome tr qn j hjq

theorem processOp_failed_optimistic_restore (reg : Registry) (st : LinkState)
    (op : Operation) (r : OpResult) (k : CacheKey)
    (hkind : op.query.operation = .mutation)
    (hopt : op.optimistic = true)
    (hfail : r.ok = false)
    (hw : isWatched reg ((op.query.name).getD "") = true)
    (hwf : trackerWF st.tracker = true)
    (hregnd : (getRegisteredQueryNames reg ((op.query.name).getD "")).Nodup)
    (hpre : ∀ j ∈ getCachedQueryKeysToUpdate reg st.tracker ((op.query.name).getD ""),
        presentTruthy st.store j = true)
    (hfn : ∀ j ∈ getCachedQueryKeysToUpdate reg st.tracker ((op.query.name).getD ""),
        jsTruthy (cmRead st.store j) = true →
        (getUpdateFn reg (getQueryName op.query) (getQueryName j.query)).isSome = true)
    (hk : k ∈ getCachedQueryKeysToUpdate reg st.tracker ((op.query.name).getD "")) :
    ∃ st2, processOp reg false st op r = .ok st2
      ∧ storeRead st2.store k = storeRead st.store k
      ∧ getBeforeState st2.snaps (.ck k) = none := by
  obtain ⟨stB, its, hok, hitems, hchar⟩ :=
    collectUpdates_run reg op (Val.objCons "data" op.optimisticResponse Val.objNil)
      st.store (getCachedQueryKeysToUpdate reg st.tracker ((op.query.name).getD ""))
      (addOptimisticRequest reg st ((op.query.name).getD "")) [] rfl
      (fun j hj _ => mem_cachedKeys_name reg st.tracker _ hwf j hj)
      (fun j hj ht => hfn j hj ht)
      (fun j hj qn hq => trackerWF_getQueryName st.tracker hwf qn j hq)
  rw [List.nil_append] at hok
  obtain ⟨hBs, hBn⟩ := collectUpdates_fields reg op _ _
    (addOptimisticRequest reg st ((op.query.name).getD "")) [] stB its hok
  have hBs2 : stB.store = st.store := hBs
  have hcond : (op.optimistic
      && isWatched reg ((op.query.name).getD "")) = true := by
    rw [hopt, hw]
    rfl
  have hupd : updateQueriesAfterMutation reg false
      (addOptimisticRequest reg st ((op.query.name).getD "")) op
      ((op.query.name).getD "") (Val.objCons "data" op.optimisticResponse Val.objNil)
      = .ok ({ stB with store := writeItems false stB.store its }) := by
    unfold updateQueriesAfterMutation
    dsimp only
    rw [show getCachedQueryKeysToUpdate reg
        (addOptimisticRequest reg st ((op.query.name).getD "")).tracker
        ((op.query.name).getD "")
        = getCachedQueryKeysToUpdate reg st.tracker ((op.query.name).getD "") from rfl]
    rw [hok]
    rfl
  have hEnter : requestEnter reg false st op
      = .ok ({ stB with store := writeItems false stB.store its }) := by
    unfold requestEnter
    rw [if_pos hcond]
    exact hupd
  have hres : requestResult reg false
      ({ stB with store := writeItems false stB.store its }) op r
      = .ok (revertOptimisticRequest reg false
          ({ stB with store := writeItems false stB.store its })
          ((op.query.name).getD "")) := by
    unfold requestResult
    rw [if_neg (by rw [hkind]; exact Bool.false_ne_true),
      if_neg (by rw [hkind, hfail]; exact Bool.false_ne_true),
      if_pos (by rw [hkind, hfail, hw, hopt]; rfl)]
  have hproc : processOp reg false st op r
      = .ok (revertOptimisticRequest reg false
          ({ stB with store := writeItems false stB.store its })
          ((op.query.name).getD "")) := by
    unfold processOp
    rw [hEnter]
    exact hres
  have hkeysR : getCachedQueryKeysToUpdate reg stB.tracker ((op.query.name).getD "")
      = (getCachedQueryKeysToUpdate reg st.tracker ((op.query.name).getD "")).filter
          (fun j => jsTruthy (cmRead st.store j)) := by
    rw [getCachedQueryKeys_eq_flatMap, getCachedQueryKeys_eq_flatMap,
      List.filter_flatMap]
    apply flatMap_congr
    intro qn hqn
    rw [hchar qn]
    rw [show getQueryKeysToUpdate
        (addOptimisticRequest reg st ((op.query.name).getD "")).tracker qn
        = getQueryKeysToUpdate st.tracker qn from rfl]
    apply List.filter_congr
    intro x hx
    have hxk : x ∈ getCachedQueryKeysToUpdate reg st.tracker ((op.query.name).getD "") := by
      rw [getCachedQueryKeys_eq_flatMap]
      exact List.mem_flatMap.mpr ⟨qn, hqn, hx⟩
    have hdx : decide
        (x ∈ getCachedQueryKeysToUpdate reg st.tracker ((op.query.name).getD "")) = true := by
      simpa using hxk
    rw [hdx]
    simp
  have hsnapB : ∀ j, getBeforeState
      ({ stB with store := writeItems false stB.store its } : LinkState).snaps (.ck j)
      = (if j ∈ getCachedQueryKeysToUpdate reg st.tracker ((op.query.name).getD "")
         then cmRead st.store j
         else getBeforeState st.snaps (.ck j)) := by
    intro j
    show getBeforeState stB.snaps (.ck j) = _
    rw [hBn]
    exact snapFold_get (fun qk => cmRead st.store qk) _ st.snaps j
  have hrev : revertOptimisticRequest reg false
      ({ stB with store := writeItems false stB.store its }) ((op.query.name).getD "")
      = ((getCachedQueryKeysToUpdate reg st.tracker ((op.query.name).getD "")).filter
          (fun j => jsTruthy (cmRead st.store j))).foldl (revertStep false)
          ({ stB with store := writeItems false stB.store its }) := by
    unfold revertOptimisticRequest
    rw [show getCachedQueryKeysToUpdate reg
        ({ stB with store := writeItems false stB.store its } : LinkState).tracker
        ((op.query.name).getD "")
        = getCachedQueryKeysToUpdate reg stB.tracker ((op.query.name).getD "") from rfl,
      hkeysR]
  rw [hproc, hrev]
  refine ⟨_, rfl, ?_⟩
  by_cases hTk : jsTruthy (cmRead st.store k) = true
  · -- the key's pre-state is written back, then its snapshot cleared
    have hkR : k ∈ (getCachedQueryKeysToUpdate reg st.tracker
        ((op.query.name).getD "")).filter (fun j => jsTruthy (cmRead st.store j)) :=
      List.mem_filter.mpr ⟨hk, hTk⟩
    have hndR : ((getCachedQueryKeysToUpdate reg st.tracker
        ((op.query.name).getD "")).filter
          (fun j => jsTruthy (cmRead st.store j))).Nodup :=
      (keys_nodup reg st.tracker _ hwf hregnd).filter _
    have hsnapR : ∀ j ∈ (getCachedQueryKeysToUpdate reg st.tracker
        ((op.query.name).getD "")).filter (fun j => jsTruthy (cmRead st.store j)),
        getBeforeState
            ({ stB with store := writeItems false stB.store its } : LinkState).snaps
            (.ck j)
          = some ((cmRead st.store j).getD Val.vnull)
        ∧ ((cmRead st.store j).getD Val.vnull).truthy = true := by
      intro j hj
      obtain ⟨hjk, hjT⟩ := List.mem_filter.mp hj
      rw [hsnapB j, if_pos hjk]
      cases hvj : cmRead st.store j with
      | none =>
          rw [hvj] at hjT
          exact absurd hjT (by simp [jsTruthy])
      | some vj =>
          rw [hvj] at hjT
          simp only [jsTruthy] at hjT
          exact ⟨by simp, by simpa using hjT⟩
    obtain ⟨hst2, hsn2⟩ := revertFold_restore
      (fun j => (cmRead st.store j).getD Val.vnull) _ _ hndR hsnapR k hkR
    refine ⟨?_, hsn2⟩
    rw [hst2]
    rw [show storeRead st.store k = cmRead st.store k from rfl]
    cases hv : cmRead st.store k with
    | none => rw [hv] at hTk; exact absurd hTk (by simp [jsTruthy])
    | some v => simp
  · -- the key's pre-state was absent: no write happened, snapshot holds none
    rw [Bool.not_eq_true] at hTk
    have hnone : cmRead st.store k = none := by
      cases hc : cmRead st.store k with
      | none => rfl
      | some v =>
          have hp := hpre k hk
          simp only [presentTruthy, hc] at hp
          rw [hc] at hTk
          simp only [jsTruthy] at hTk
          rw [hp] at hTk
          exact Bool.noConfusion hTk
    have hknotR : k ∉ (getCachedQueryKeysToUpdate reg st.tracker
        ((op.query.name).getD "")).filter (fun j => jsTruthy (cmRead st.store j)) := by
      intro hmem
      have hTT := (List.mem_filter.mp hmem).2
      rw [hTk] at hTT
      exact Bool.noConfusion hTT
    constructor
    · rw [revertFold_read_not_mem false _ _ k hknotR]
      show storeRead (writeItems false stB.store its) k = storeRead st.store k
      rw [writeItems_read_other false its stB.store k ?_]
      · rw [hBs2]
      · intro p hp he
        obtain ⟨_, hpT⟩ := hitems p hp
        rw [he] at hpT
        rw [hTk] at hpT
        exact Bool.noConfusion hpT
    · rw [revertFold_snaps_not_mem false _ _ k hknotR, hsnapB k, if_pos hk, hnone]

/-! ## Claims -/

/-- **C1** (code bug, exhibited at the failing input): the claim says that
when a watched optimistic mutation resolves — success or failure — every
snapshot recorded for its affected cache keys is cleared, so
`getBeforeState` returns the absent marker afterwards.  On the success
path the source passes the operation *name* to `clearOptimisticRequest`,
which clears an entry keyed by that string instead of the affected cache
keys: after a successful optimistic AddItem, the snapshot for the
affected ListItems key still holds the pre-mutation data `{items:[A]}`
and is left dangling. -/
theorem claim_C1_success_leaves_snapshot_dangling :
    (processOp scenarioReg false scenarioSt scenarioOp scenarioResOk).toOption.map
        (fun s => getBeforeState s.snaps (.ck listItemsKey))
      = some (some (itemsObj [.vstr "A"])) := by decide

/-- **C2** (counterexample): the claim says that after the optimistic
AddItem (cache `{items:[A,B]}`) resolves successfully with server item
B-server, the cached ListItems entry equals `{items:[A,B-server]}`.  It
does not: the clear-snapshot step performs no write at all, so the cache
keeps the optimistic prediction `{items:[A,B]}`. -/
theorem claim_C2_counterexample :
    ¬ ((processOp scenarioReg false scenarioSt scenarioOp scenarioResOk).toOption.map
        (fun s => storeRead s.store listItemsKey)
      = some (some (itemsObj [.vstr "A", .vstr "B-server"]))) := by decide

/-- **C2** (amended): in the scenario — AddItem registered as affecting
ListItems with an appending transform, cache seeded with `{items:[A]}`,
AddItem run optimistically predicting B so the cache becomes
`{items:[A,B]}` — a subsequent successful resolution with server item
B-server leaves the cached entry at `{items:[A,B]}`: the clear-snapshot
step does not re-apply the update, so the server item is never written
(in particular the entry is not `{items:[A,B,B-server]}`). -/
theorem claim_C2_amended_prediction_kept :
    (processOp scenarioReg false scenarioSt scenarioOp scenarioResOk).toOption.map
        (fun s => storeRead s.store listItemsKey)
      = some (some (itemsObj [.vstr "A", .vstr "B"])) := by decide

/-- **C3** (code bug, exhibited at the failing input): the claim says
`removeQuery(queryName, key)` is a no-op and never fails when the query
name has never been tracked.  The source reads
`queriesToUpdate[queryName].length` without a guard, which is a property
access on `undefined`: calling `removeQuery` on an empty tracker throws
a `TypeError`. -/
theorem claim_C3_removeQuery_untracked_throws :
    removeQuery ([] : QState) "ListItems" listItemsKey = .error .typeError := rfl

/-- **C5** (code bug, exhibited at the failing input): the claim says
enabling the debug flag never alters an adapter operation's control flow
or return value.  The `evict` success log and error log both reference
the identifier `queryName`, which is not defined in the cache-manager
module: with debug enabled a (non-read-only) evict throws a
`ReferenceError`, while with debug disabled the same call returns
`true`. -/
theorem claim_C5_debug_alters_evict_control_flow :
    cmEvict true false (fun s => s) ["items"] listItemsKey = .error .referenceError
    ∧ cmEvict false false (fun s => s) ["items"] listItemsKey = .ok (some true, []) :=
  ⟨rfl, rfl⟩

theorem addQuery_of_mem (st : QState) (q : String) (k : CacheKey)
    (h : k ∈ getQueryKeysToUpdate st q) : addQuery st q k = st := by
  have hb : (getQueryKeysToUpdate st q).any (fun key => decide (key = k)) = true := by
    rw [List.any_eq_true]
    exact ⟨k, h, by simp⟩
  simp [addQuery, hb]

theorem mem_addQuery_self (st : QState) (q : String) (k : CacheKey) :
    k ∈ getQueryKeysToUpdate (addQuery st q k) q := by
  by_cases hb : (getQueryKeysToUpdate st q).any (fun key => decide (key = k)) = true
  · rw [List.any_eq_true] at hb
    obtain ⟨x, hx, hxk⟩ := hb
    simp only [decide_eq_true_eq] at hxk
    subst hxk
    rw [addQuery_of_mem st q x hx]
    exact hx
  · simp only [addQuery, hb, if_false]
    simp [getQueryKeysToUpdate, alistFind_set_self]

theorem evictLoopGo_true (ids : List String) (es : EvStore) :
    evictLoopGo (true, es) ids = (true, es) := by
  induction ids with
  | nil => rfl
  | cons id rest ih => exact ih

theorem filter_ne_of_not_contains (es : EvStore) (id : String)
    (h : es.contains id = false) : es.filter (fun f => decide (f ≠ id)) = es := by
  have hmem : id ∉ es := by simpa using h
  apply List.filter_eq_self.mpr
  intro a ha
  simp only [decide_eq_true_eq]
  intro hcontra
  subst hcontra
  exact hmem ha

theorem evictLoop_spec (ids : List String) (es : EvStore) :
    evictLoop es ids =
      (ids.any (fun i => es.contains i),
       match ids.find? (fun i => es.contains i) with
       | none => es
       | some i => es.filter (fun f => decide (f ≠ i))) := by
  induction ids generalizing es with
  | nil => rfl
  | cons id rest ih =>
    have hstep : evictLoop es (id :: rest) = evictLoopGo (storeEvictOne es id) rest := rfl
    by_cases h : es.contains id = true
    · have h1 : storeEvictOne es id = (true, es.filter (fun f => decide (f ≠ id))) := by
        simp only [storeEvictOne, h]
      rw [hstep, h1, evictLoopGo_true, List.find?_cons_of_pos rest h]
      simp only [List.any_cons, h, Bool.true_or]
    · rw [Bool.not_eq_true] at h
      have h1 : storeEvictOne es id = (false, es) := by
        simp only [storeEvictOne, h, filter_ne_of_not_contains es id h]
      rw [hstep, h1]
      have h2 : evictLoopGo (false, es) rest = evictLoop es rest := rfl
      rw [h2, ih es, List.find?_cons_of_neg rest (by simpa using h)]
      simp only [List.any_cons, h, Bool.false_or]

/-- **C4** (counterexample): the claim says `evict(key)` invokes the
store's evict once per requested top-level field, evicting each computed
sub-identifier.  With two requested fields both present in the store,
the `evicted ||= cache.evict(...)` loop short-circuits after the first
successful eviction: the second sub-identifier is never evicted and
remains in the store, so the claimed outcome (both evicted) is false. -/
theorem claim_C4_counterexample :
    ¬ ((cmEvict false false (fun s => s) ["f1", "f2"]
          ⟨⟨some "TwoFields", .query, [.field "f1", .field "f2"]⟩, .vnull⟩).toOption
        = some (some true, [])) := by decide

/-- **C4** (amended): with debug disabled and not read-only, `evict(key)`
computes the store-level sub-identifier of every top-level field the
key's operation requests, but invokes the store's evict only until the
first successful eviction (sub-identifiers after the first success are
not evicted); it returns true iff at least one sub-identifier was
evicted, i.e. iff any computed sub-identifier is present in the store. -/
theorem claim_C4_amended_evict_short_circuits (sfn : String → String) (es : EvStore)
    (query : CacheKey) :
    cmEvict false false sfn es query =
      .ok (some ((evictCacheIds sfn query).any (fun i => es.contains i)),
           match (evictCacheIds sfn query).find? (fun i => es.contains i) with
           | none => es
           | some i => es.filter (fun f => decide (f ≠ i))) := by
  rw [cmEvict, if_neg (by simp)]
  simp only [Bool.false_eq_true, if_false]
  rw [evictLoop_spec]

/-- **C6** (confirmed): for a watched optimistic mutation that fails,
snapshotting the affected keys and then reverting restores the cached
entry of every affected key exactly and clears its snapshot, so a
subsequent `getBeforeState` returns the absent marker.  Hypotheses: the
operation is an optimistic mutation whose name is watched; the tracker is
well-formed (distinct names, de-duplicated lists, keys tracked under
their own document's name — the shape the orchestrator itself builds);
the mutation's registered query names are duplicate-free; every affected
key's cached value, when present, is truthy (a GraphQL result object
always is); and an update transform is registered for every affected key
that is actually read (otherwise the pass throws, cf. C8/C3). -/
theorem claim_C6_failed_optimistic_round_trip (reg : Registry) (ro : Bool)
    (st : LinkState) (op : Operation) (r : OpResult) (k : CacheKey)
    (hkind : op.query.operation = .mutation)
    (hopt : op.optimistic = true)
    (hfail : r.ok = false)
    (hw : isWatched reg ((op.query.name).getD "") = true)
    (hwf : trackerWF st.tracker = true)
    (hregnd : (getRegisteredQueryNames reg ((op.query.name).getD "")).Nodup)
    (hpre : ∀ j ∈ getCachedQueryKeysToUpdate reg st.tracker ((op.query.name).getD ""),
        presentTruthy st.store j = true)
    (hfn : ∀ j ∈ getCachedQueryKeysToUpdate reg st.tracker ((op.query.name).getD ""),
        jsTruthy (cmRead st.store j) = true →
        (getUpdateFn reg (getQueryName op.query) (getQueryName j.query)).isSome = true)
    (hk : k ∈ getCachedQueryKeysToUpdate reg st.tracker ((op.query.name).getD "")) :
    (processOp reg ro st op r).toOption.map
        (fun s => (storeRead s.store k, getBeforeState s.snaps (.ck k)))
      = some (storeRead st.store k, none) := by
  obtain ⟨st2, hok, hstore, hsnap⟩ :=
    processOp_failed_optimistic_restore reg st op r k hkind hopt hfail hw hwf
      hregnd hpre hfn hk
  cases ro with
  | false =>
      rw [hok]
      simp [Except.toOption, hstore, hsnap]
  | true =>
      rw [processOp_readOnly_eq, hok]
      simp [Except.toOption, Except.map, hsnap]

/-- Witness for C6: in the concrete scenario, a failed optimistic AddItem
leaves the ListItems entry byte-identical to the seeded `{items:[A]}` and
its snapshot absent. -/
theorem claim_C6_failed_optimistic_round_trip_witness :
    (processOp scenarioReg false scenarioSt scenarioOp scenarioResFail).toOption.map
        (fun s => (storeRead s.store listItemsKey,
          getBeforeState s.snaps (.ck listItemsKey)))
      = some (storeRead scenarioSt.store listItemsKey, none) :=
  claim_C6_failed_optimistic_round_trip scenarioReg false scenarioSt scenarioOp
    scenarioResFail listItemsKey rfl rfl rfl (by decide) (by decide) (by decide)
    (by decide) (by decide) (by decide)

/-- **C7** (confirmed): adding the same (queryName, cache key) pair twice
leaves the tracked set exactly as it was after the first call.  Key
comparison in the source is `JSON.stringify` equality, i.e. deep
structural comparison — modelled here by structural equality on
`CacheKey`, under which two structurally-equal object instances are the
same value. -/
theorem claim_C7_addQuery_idempotent (st : QState) (queryName : String)
    (queryKey : CacheKey) :
    addQuery (addQuery st queryName queryKey) queryName queryKey
      = addQuery st queryName queryKey :=
  addQuery_of_mem _ queryName queryKey (mem_addQuery_self st queryName queryKey)

/-- **C8** (confirmed): during update computation, an affected key whose
cache read is falsy is deregistered from the tracker and yields no item
to write, and this holds for every registry — extensionally, no update
transform is invoked for it; a different tracked key is untouched by the
removal.  The key's query name must already have a tracker entry
(`removeQuery` succeeding), which is how the orchestrator reaches this
code path. -/
theorem claim_C8_failed_read_deregisters (reg : Registry) (st : LinkState)
    (mutationOperation : Operation) (mutationData : Val) (k kOther : CacheKey)
    (qnOther : String) (tr' : QState)
    (hread : jsTruthy (cmRead st.store k) = false)
    (hrem : removeQuery st.tracker (getQueryName k.query) k = .ok tr')
    (hne : kOther ≠ k)
    (hmem : kOther ∈ getQueryKeysToUpdate st.tracker qnOther) :
    getUpdateAfterMutation reg st mutationOperation mutationData k
        = .ok ({ st with tracker := tr' }, none)
      ∧ k ∉ getQueryKeysToUpdate tr' (getQueryName k.query)
      ∧ kOther ∈ getQueryKeysToUpdate tr' qnOther := by
  have hsome : (alistFind st.tracker (getQueryName k.query)).isSome := by
    by_contra hn
    rw [Option.not_isSome_iff_eq_none] at hn
    simp only [removeQuery, hn] at hrem
    exact Except.noConfusion hrem
  obtain ⟨tr'', hok, hchar, _⟩ := removeQuery_spec st.tracker (getQueryName k.query) k hsome
  rw [hok] at hrem
  have htr : tr'' = tr' := by
    injection hrem
  subst htr
  refine ⟨?_, ?_, ?_⟩
  · simp only [getUpdateAfterMutation]
    cases hc : cmRead st.store k with
    | none =>
        rw [hok]
        rfl
    | some v =>
        have hv : v.truthy = false := by
          rw [hc] at hread
          simpa [jsTruthy] using hread
        dsimp only
        rw [if_pos hv, hok]
        rfl
  · rw [hchar (getQueryName k.query), if_pos rfl]
    intro hkmem
    rw [List.mem_filter] at hkmem
    simp at hkmem
  · rw [hchar qnOther]
    by_cases hq : qnOther = getQueryName k.query
    · rw [if_pos hq]
      rw [List.mem_filter]
      exact ⟨hq ▸ hmem, by simpa using hne⟩
    · rw [if_neg hq]
      exact hmem

/-- Witness for C8: in a state with an empty cache and two tracked
ListItems keys, processing the first key (whose read fails) removes it,
produces no write item, and keeps the second key tracked. -/
theorem claim_C8_failed_read_deregisters_witness :
    getUpdateAfterMutation scenarioReg twoKeyState scenarioOp .vnull listItemsKey
        = .ok ({ twoKeyState with tracker := twoKeyTrackerAfter }, none)
      ∧ listItemsKey ∉ getQueryKeysToUpdate twoKeyTrackerAfter
          (getQueryName listItemsKey.query)
      ∧ otherListItemsKey ∈ getQueryKeysToUpdate twoKeyTrackerAfter "ListItems" :=
  claim_C8_failed_read_deregisters scenarioReg twoKeyState scenarioOp .vnull
    listItemsKey otherListItemsKey "ListItems" twoKeyTrackerAfter
    (by decide) rfl (by decide) (by decide)

/-- **C9** (confirmed): in read-only mode `write` is a no-op and `evict`
returns false without touching the store, and processing any operation
leaves the underlying store untouched while producing exactly the
tracker and snapshot state (and the same error, if any) that read-write
mode would produce. -/
theorem claim_C9_readonly_frame (reg : Registry) (st : LinkState) (op : Operation)
    (r : OpResult) (debug : Bool) (sfn : String → String) (es : EvStore)
    (k : CacheKey) (v : Val) :
    cmWrite true st.store k v = st.store
    ∧ cmEvict debug true sfn es k = .ok (some false, es)
    ∧ processOp reg true st op r
        = (processOp reg false st op r).map (fun s => { s with store := st.store }) :=
  ⟨rfl, rfl, processOp_readOnly_eq reg st op r⟩

/-- **C10** (confirmed): an operation whose main definition carries no
name is classified under the empty-string operation name; when the empty
string is neither a registered query name nor a watched mutation name,
processing it performs no tracking and no watched-mutation handling and
never fails: the link state passes through unchanged. -/
theorem claim_C10_anonymous_operation_passthrough (reg : Registry) (readOnly : Bool)
    (st : LinkState) (operation : Operation) (result : OpResult)
    (hname : operation.query.name = none)
    (hrel : isQueryRelated reg "" = false)
    (hw : isWatched reg "" = false) :
    processOp reg readOnly st operation result = .ok st := by
  simp [processOp, requestEnter, requestResult, hname, hrel, hw]

/-- Witness for C10: a concrete anonymous mutation against the scenario
registry passes through with the state unchanged. -/
theorem claim_C10_anonymous_operation_passthrough_witness :
    processOp scenarioReg false scenarioSt ⟨⟨none, .mutation, []⟩, .vnull, true, .vnull⟩
        ⟨true, .vnull⟩ = .ok scenarioSt :=
  claim_C10_anonymous_operation_passthrough scenarioReg false scenarioSt _ _ rfl
    (by decide) (by decide)

end ALWM
